import Mathlib

/-!
Verification development for the vuliz package-network builder.

The definitions below are a shallow embedding of the TypeScript sources:
  * `src/packages/types.ts` (Package, PackageType, LATEST_VERSION)
  * `src/vulnerabilities/types.ts` (Severity, Vulnerability, VulnerabilityContainer)
  * `src/dependencies/types.ts` (Dependency)
  * `src/dependencies/dependency_provider_factory.ts` (provider registry / dispatch)
  * `src/dependencies/python_dependency_provider.ts` (PyPI resolver)
  * `src/packages/extractors/python/file_processors/requirements_file_processor.ts`
    (`parsePackageEntry` and its helpers)
  * `src/package_network/package_network_creator.ts` (the level-bounded builder)

Network I/O is represented by oracles: the PyPI registry is a function
`Package → RegistryResponse` describing the outcome of the single `fetch` the
provider performs per package, and the vulnerability annotator is a function
`Package → Option VulnerabilityContainer` (see `addVulnerabilities`).
Promise rejection (a thrown error) is modelled with `Except`.
-/

namespace Vuliz

/-- Severity enum from `src/vulnerabilities/types.ts`. -/
inductive Severity
  | unknown
  | low
  | medium
  | high
  | critical
deriving DecidableEq, Repr

/-- A single vulnerability (`src/vulnerabilities/types.ts`). The numeric
`cvssScore` is carried as a rational; no arithmetic is ever performed on it. -/
structure Vulnerability where
  name : String
  severity : Severity
  cvssScore : Rat
  cveId : Option String := none
deriving DecidableEq, Repr

/-- Vulnerability list plus aggregated severity (`src/vulnerabilities/types.ts`). -/
structure VulnerabilityContainer where
  vulnerabilities : List Vulnerability
  overallSeverity : Severity
deriving DecidableEq, Repr

/-- Package ecosystems (`PackageType` in `src/packages/types.ts`). -/
inductive PackageType
  | npm
  | pypi
deriving DecidableEq, Repr

/-- Sentinel for "latest version" (`src/packages/types.ts`). -/
def LATEST_VERSION : String := "*"

/-- A package (`src/packages/types.ts`). `type` and `vulnerabilityContainer`
are the optional fields of the interface. -/
structure Package where
  name : String
  type : Option PackageType := none
  version : String
  vulnerabilityContainer : Option VulnerabilityContainer := none
deriving DecidableEq, Repr

/-- Directed dependency edge (`src/dependencies/types.ts`): `from` requires `to`. -/
structure Dependency where
  «from» : Package
  «to» : Package
deriving DecidableEq, Repr

/-! ## Requirement-string parsing

`RequirementsFileProcessor.parsePackageEntry` matches a requirement line against
the regex `^([a-zA-Z0-9_.-]+)(?:\[[^\]]+\])? *((?:==|!=|>=?|<=?|~=|\^)[^;#\s]*)?`
and throws when there is no match (modelled by `Option`). The regex pieces are
translated one by one below. -/

/-- The character class `[a-zA-Z0-9_.-]` of the package-name group. -/
def isNameChar (c : Char) : Bool :=
  (97 ≤ c.toNat && c.toNat ≤ 122) || (65 ≤ c.toNat && c.toNat ≤ 90) ||
    (48 ≤ c.toNat && c.toNat ≤ 57) || c == '_' || c == '.' || c == '-'

/-- ASCII lower-casing, the effect of `toLowerCase` on the characters the
name group can produce (they are all ASCII). -/
def toLowerChar (c : Char) : Char :=
  if 65 ≤ c.toNat ∧ c.toNat ≤ 90 then Char.ofNat (c.toNat + 32) else c

/-- `RequirementsFileProcessor.cleanPackageName`: lower-case the name. -/
def cleanPackageName (s : String) : String :=
  String.mk (s.data.map toLowerChar)

/-- Does the first list occur at the head of the second one? -/
def startsWithChars : List Char → List Char → Bool
  | [], _ => true
  | _ :: _, [] => false
  | a :: as, b :: bs => a == b && startsWithChars as bs

/-- The alternatives of `^(===|~=|==|!=|>=|<=|>|<|=)` in the order the regex
engine tries them (`RequirementsFileProcessor.cleanVersion`). -/
def cleanVersionOps : List String :=
  ["===", "~=", "==", "!=", ">=", "<=", ">", "<", "="]

/-- `RequirementsFileProcessor.cleanVersion`: strip one leading version
operator; an empty remainder means the latest-version sentinel. -/
def cleanVersion (versionEntry : String) : String :=
  let stripped :=
    match cleanVersionOps.find? (fun op => startsWithChars op.data versionEntry.data) with
    | some op => String.mk (versionEntry.data.drop op.length)
    | none => versionEntry
  if stripped = "" then LATEST_VERSION else stripped

/-- The optional non-capturing extras group `(?:\[[^\]]+\])?`: consume a
bracketed segment when one is present, otherwise leave the input alone. -/
def dropExtras (cs : List Char) : List Char :=
  match cs with
  | '[' :: t =>
    let inner := t.takeWhile (fun c => c != ']')
    match t.dropWhile (fun c => c != ']') with
    | ']' :: rest => if inner.isEmpty then cs else rest
    | _ => cs
  | _ => cs

/-- JavaScript `\s` on the inputs at hand (ASCII whitespace). -/
def isJsWhitespace (c : Char) : Bool :=
  c == ' ' || c == '\t' || c == '\n' || c == '\r' || c == '\x0b' || c == '\x0c'

/-- The version-specifier alternatives `==|!=|>=?|<=?|~=|\^` in the order the
regex engine tries them (`>=?` expands greedily to `>=` before `>`). -/
def versionOps : List String := ["==", "!=", ">=", ">", "<=", "<", "~=", "^"]

/-- The optional second capture group `((?:==|!=|>=?|<=?|~=|\^)[^;#\s]*)?`:
an operator followed by characters up to `;`, `#` or whitespace; an absent
group captures the empty string (`match[2] || ''`). -/
def matchVersionSpec (cs : List Char) : String :=
  match versionOps.find? (fun op => startsWithChars op.data cs) with
  | none => ""
  | some op =>
    op ++ String.mk ((cs.drop op.length).takeWhile
      (fun c => !(c == ';' || c == '#' || isJsWhitespace c)))

/-- `RequirementsFileProcessor.parsePackageEntry`: parse one requirement line
into a package; `none` models the thrown `Invalid package format` error (the
regex fails exactly when the line does not start with a name character). -/
def parsePackageEntry (rawEntry : String) : Option Package :=
  let cs := rawEntry.data
  let namePart := cs.takeWhile isNameChar
  if namePart.isEmpty then none
  else
    some
      { name := cleanPackageName (String.mk namePart),
        version := cleanVersion
          (matchVersionSpec (((cs.dropWhile isNameChar) |> dropExtras).dropWhile (fun c => c == ' '))) }

/-! ## Python dependency provider (`python_dependency_provider.ts`) -/

/-- Outcome of the single `fetch` + `json()` round trip the provider performs
for one package: the promise rejected, the response was not `ok`, the body
failed to parse, or a parsed body with an optional `requires_dist` array. -/
inductive RegistryResponse
  | fetchFailed
  | notFound
  | malformedBody
  | jsonBody (requiresDist : Option (List String))
deriving DecidableEq, Repr

/-- `PythonDependencyProvider.getPackageVersionForAPI`: `null` for the
latest-version sentinel, the pinned version otherwise. -/
def getPackageVersionForAPI (pkg : Package) : Option String :=
  if pkg.version = LATEST_VERSION then none else some pkg.version

/-- `PythonDependencyProvider.parseRequirements`: parse each requirement
string, skipping entries that fail to parse. -/
def parseRequirements (requirements : List String) : List Package :=
  requirements.filterMap parsePackageEntry

/-- `PythonDependencyProvider.fetchRequiredPackages`. All three failure shapes
are caught in the source and produce an empty list. On a parsed body the code
computes `version && data.info.requires_dist ? data.info.requires_dist : []`;
the `if v = ""` branch reproduces the falsiness of an empty version string. -/
def fetchRequiredPackages (registry : Package → RegistryResponse) (pkg : Package) :
    List Package :=
  match registry pkg with
  | .fetchFailed => []
  | .notFound => []
  | .malformedBody => []
  | .jsonBody requiresDist =>
    let requirements :=
      match getPackageVersionForAPI pkg, requiresDist with
      | some v, some reqs => if v = "" then [] else reqs
      | _, _ => []
    parseRequirements requirements

/-- `PythonDependencyProvider.buildDependencies`: one edge per required package. -/
def buildDependencies (sourcePackage : Package) (requiredPackages : List Package) :
    List Dependency :=
  requiredPackages.map (fun requiredPackage =>
    { «from» := sourcePackage, «to» := requiredPackage })

/-- `PythonDependencyProvider.extractDependencies`. -/
def pythonExtractDependencies (registry : Package → RegistryResponse) (pkg : Package) :
    List Dependency :=
  buildDependencies pkg (fetchRequiredPackages registry pkg)

/-! ## Provider factory (`dependency_provider_factory.ts`) -/

/-- The two error classes of `src/dependencies/errors.ts`. -/
inductive DependencyError
  | dependencyProviderNotFound (packageType : PackageType)
  | packageTypeUnknown (packageName : String)
deriving DecidableEq, Repr

/-- The `providerRegistry` table: only `PackageType.PYPI` has a registered
provider (the commented-out NPM/Maven entries do not exist). -/
def providerRegistry (registry : Package → RegistryResponse) :
    PackageType → Option (Package → List Dependency)
  | .pypi => some (pythonExtractDependencies registry)
  | .npm => none

/-- `DependencyProviderFactory.getPackageType`: the package's own tag or a
thrown `PackageTypeUnknownError` naming the package. -/
def getPackageType (pkg : Package) : Except DependencyError PackageType :=
  match pkg.type with
  | some t => .ok t
  | none => .error (.packageTypeUnknown pkg.name)

/-- `DependencyProviderFactory.getProvider`: look the type up in the registry
or throw `DependencyProviderNotFoundError` naming the type. -/
def getProvider (registry : Package → RegistryResponse) (pkg : Package) :
    Except DependencyError (Package → List Dependency) :=
  match getPackageType pkg with
  | .error e => .error e
  | .ok packageType =>
    match providerRegistry registry packageType with
    | some provider => .ok provider
    | none => .error (.dependencyProviderNotFound packageType)

/-- The free function `extractDependencies`: an empty batch yields an empty
set; otherwise the provider is obtained from the FIRST package of the batch
and applied to every package, the per-package results being accumulated in
insertion order (the returned `Set<Dependency>` holds fresh objects, so no
reference-level deduplication ever fires). -/
def extractDependencies (registry : Package → RegistryResponse)
    (packages : List Package) : Except DependencyError (List Dependency) :=
  match packages with
  | [] => .ok []
  | p :: _ =>
    match getProvider registry p with
    | .error e => .error e
    | .ok provider => .ok (packages.flatMap provider)

/-! ## Package-network builder (`package_network_creator.ts`)

The builder's instance state is the pair of running sets `processedDependencies`
(seen edge keys) and `processedPackages` (claimed package keys; the source's
`Map` is only ever queried through `has`/`set`, so its key set is what matters).
The manifest extraction (`extractPackages`, a `File` + `FileReader` round trip)
enters the builder as an `Except`-valued input, and the vulnerability annotator
as a per-package oracle. -/

/-- Errors of `src/packages/errors.ts` that manifest extraction can surface. -/
inductive ExtractionError
  | fileProcessingFailed (fileName : String)
  | unsupportedFileType (fileName : String)
deriving DecidableEq, Repr

/-- The stage recorded inside the `PackageNetworkCreationError` wrappers: the
root level either failed in extraction, or a later level failed in dispatch
(`create` re-wraps both into `Failed to create package network`; the nesting is
collapsed as the payload is all that remains observable). -/
inductive NetworkCreationFailure
  | rootLevelFailed (cause : ExtractionError)
  | levelProcessingFailed (cause : DependencyError)
deriving DecidableEq, Repr

/-- One level of the network (`src/package_network/types.ts`). -/
structure PackageNetworkLevel where
  packages : List Package
  dependencies : List Dependency
deriving DecidableEq, Repr

/-- The produced network (`src/package_network/types.ts`). -/
structure PackageNetwork where
  levels : List PackageNetworkLevel
deriving DecidableEq, Repr

/-- The builder-instance state: `processedDependencies` and the key set of
`processedPackages`, both empty at construction. -/
structure CreatorState where
  processedDependencies : List String
  processedPackages : List String
deriving DecidableEq, Repr

/-- State at `new PackageNetworkCreator(...)`. -/
def initialState : CreatorState := { processedDependencies := [], processedPackages := [] }

/-- `createPackageKey`: `` `${pkg.name}@${pkg.version}` ``. -/
def createPackageKey (pkg : Package) : String :=
  pkg.name ++ "@" ++ pkg.version

/-- `createDependencyKey`: `` `${fromKey}->${toKey}` ``. -/
def createDependencyKey (dependency : Dependency) : String :=
  createPackageKey dependency.«from» ++ "->" ++ createPackageKey dependency.«to»

/-- The synthetic root package built in `createRootLevel`. -/
def rootPackage : Package := { name := "Your Package", version := LATEST_VERSION }

/-- `filterUniquePackages`: keep the first package per key, claiming each kept
key into `processedPackages`; later holders of a claimed key are dropped. -/
def filterUniquePackages (st : CreatorState) :
    List Package → List Package × CreatorState
  | [] => ([], st)
  | pkg :: rest =>
    if createPackageKey pkg ∈ st.processedPackages then
      filterUniquePackages st rest
    else
      let st' := { st with processedPackages := createPackageKey pkg :: st.processedPackages }
      ((filterUniquePackages st' rest).1.cons pkg, (filterUniquePackages st' rest).2)

/-- The loop body of `extractUniqueDependencies`: keep each edge whose key is
not yet in `processedDependencies`, recording kept keys. -/
def filterUniqueDependencies (st : CreatorState) :
    List Dependency → List Dependency × CreatorState
  | [] => ([], st)
  | dependency :: rest =>
    if createDependencyKey dependency ∈ st.processedDependencies then
      filterUniqueDependencies st rest
    else
      let st' := { st with
        processedDependencies := createDependencyKey dependency :: st.processedDependencies }
      ((filterUniqueDependencies st' rest).1.cons dependency,
        (filterUniqueDependencies st' rest).2)

/-- `extractUniqueDependencies`: resolve the batch through the factory, then
drop edges already seen (a thrown dispatch error propagates). -/
def extractUniqueDependencies (registry : Package → RegistryResponse)
    (st : CreatorState) (packages : List Package) :
    Except DependencyError (List Dependency × CreatorState) :=
  match extractDependencies registry packages with
  | .error e => .error e
  | .ok allDependencies => .ok (filterUniqueDependencies st allDependencies)

/-- `collectNextLevelPackages`: the targets of the surviving edges whose key is
not yet claimed (without claiming; duplicates may remain). -/
def collectNextLevelPackages (st : CreatorState) (dependencies : List Dependency) :
    List Package :=
  dependencies.filterMap (fun dependency =>
    if createPackageKey dependency.«to» ∈ st.processedPackages then none
    else some dependency.«to»)

/-- Modelled from the spec: `SonaTypeVulnerabilityProvider.addVulnerabilities`
is not among the sources at hand. Per §4.2 of the specification the annotator
returns, per input package and in order, either the package unchanged (no known
vulnerabilities) or a copy carrying a vulnerability summary, and upstream
failures degrade to "no vulnerability data" instead of throwing. It is
therefore a total per-package enrichment oracle `ann`. -/
def addVulnerabilities (ann : Package → Option VulnerabilityContainer)
    (packages : List Package) : List Package :=
  packages.map (fun pkg => { pkg with vulnerabilityContainer := ann pkg })

/-- `createDependencies`: one edge from the root to each direct dependency. -/
def createDependencies (root : Package) (packages : List Package) : List Dependency :=
  packages.map (fun pkg => { «from» := root, «to» := pkg })

/-- `createRootLevel`: deduplicate the extracted direct dependencies, return a
root-only level when none remain, otherwise the root plus the annotated
dependencies and the root edges (built from the un-annotated copies). -/
def createRootLevel (ann : Package → Option VulnerabilityContainer)
    (extractedPackages : Except ExtractionError (List Package)) (st : CreatorState) :
    Except NetworkCreationFailure (PackageNetworkLevel × CreatorState) :=
  match extractedPackages with
  | .error e => .error (.rootLevelFailed e)
  | .ok directDependencies =>
    match filterUniquePackages st directDependencies with
    | (uniqueDirectDependencies, st') =>
      if uniqueDirectDependencies.isEmpty then
        .ok ({ packages := [rootPackage], dependencies := [] }, st')
      else
        .ok ({ packages := rootPackage :: addVulnerabilities ann uniqueDirectDependencies,
               dependencies := createDependencies rootPackage uniqueDirectDependencies },
             st')

/-- `extractPackagesFromLevel`: a level's packages with the root (matched by
its literal name) removed. -/
def extractPackagesFromLevel (level : PackageNetworkLevel) : List Package :=
  level.packages.filter (fun pkg => pkg.name != "Your Package")

/-- The `for (levelIndex = 1; levelIndex < maxLevels; ...)` loop of
`processDependencyLevels`, by recursion on the remaining iteration count.
Each iteration resolves the previous level's packages, stops (returning no
further levels) when no new edges or no unclaimed targets survive, and
otherwise emits a level and continues from the un-annotated survivors. -/
def processDependencyLevels (registry : Package → RegistryResponse)
    (ann : Package → Option VulnerabilityContainer) :
    Nat → List Package → CreatorState →
      Except NetworkCreationFailure (List PackageNetworkLevel)
  | 0, _, _ => .ok []
  | Nat.succ remaining, currentLevelPackages, st =>
    match extractUniqueDependencies registry st currentLevelPackages with
    | .error e => .error (.levelProcessingFailed e)
    | .ok (dependencies, st1) =>
      if dependencies.isEmpty then .ok []
      else
        match filterUniquePackages st1 (collectNextLevelPackages st1 dependencies) with
        | (uniqueNextLevelPackages, st2) =>
          if uniqueNextLevelPackages.isEmpty then .ok []
          else
            match processDependencyLevels registry ann remaining uniqueNextLevelPackages st2 with
            | .error e => .error e
            | .ok restLevels =>
              .ok ({ packages := addVulnerabilities ann uniqueNextLevelPackages,
                     dependencies := dependencies } :: restLevels)

/-- `PackageNetworkCreator.create` for a creator constructed with `maxLevels`:
seed the root level, then run the level loop (`maxLevels - 1` remaining
iterations, since the loop counts `levelIndex` from 1); any error aborts the
whole build and surfaces as a creation failure, discarding partial levels. -/
def create (registry : Package → RegistryResponse)
    (ann : Package → Option VulnerabilityContainer)
    (extractedPackages : Except ExtractionError (List Package)) (maxLevels : Nat) :
    Except NetworkCreationFailure PackageNetwork :=
  match createRootLevel ann extractedPackages initialState with
  | .error e => .error e
  | .ok (rootLevel, st) =>
    match processDependencyLevels registry ann (maxLevels - 1)
        (extractPackagesFromLevel rootLevel) st with
    | .error e => .error e
    | .ok restLevels => .ok { levels := rootLevel :: restLevels }

/-- The identities (as keys) listed in one level. -/
def levelPackageKeys (level : PackageNetworkLevel) : List String :=
  level.packages.map createPackageKey

/-- The identities (as keys) listed across a sequence of levels. -/
def levelsPackageKeys (levels : List PackageNetworkLevel) : List String :=
  levels.flatMap levelPackageKeys

/-- Edge-placement invariant along consecutive levels: given the key list of
the previous level (`prevKeys`) and the keys claimed so far (`claimed`), each
level's edges start at a previous-level identity and end at an identity that is
claimed no later than that level; the level's own keys then extend both. -/
def chainOK : List String → List String → List PackageNetworkLevel → Prop
  | _, _, [] => True
  | prevKeys, claimed, L :: rest =>
    (∀ e ∈ L.dependencies,
        createPackageKey e.«from» ∈ prevKeys ∧
        createPackageKey e.«to» ∈ claimed ++ levelPackageKeys L) ∧
    chainOK (levelPackageKeys L) (claimed ++ levelPackageKeys L) rest

/-- A self-looping edge (equal endpoint identities) never has its target
listed among its own level's packages. -/
def selfLoopSafe : List PackageNetworkLevel → Prop
  | [] => True
  | L :: rest =>
    (∀ e ∈ L.dependencies,
        createPackageKey e.«from» = createPackageKey e.«to» →
        createPackageKey e.«to» ∉ levelPackageKeys L) ∧
    selfLoopSafe rest

/-! ## Concrete inputs used in counterexamples and witnesses -/

/-- A pinned pypi package `a@1` as a manifest could declare it. -/
def pkgA : Package := { name := "a", type := some PackageType.pypi, version := "1" }

/-- A second pinned pypi package `b@2`. -/
def pkgB : Package := { name := "b", type := some PackageType.pypi, version := "2" }

/-- A package carrying no ecosystem tag. -/
def pkgNoType : Package := { name := "b", version := "1.0" }

/-- A package tagged with the unregistered `npm` ecosystem. -/
def pkgNpm : Package := { name := "c", type := some PackageType.npm, version := "2" }

/-- A pypi package at the `"*"` latest-version sentinel. -/
def pkgStar : Package := { name := "x", type := some PackageType.pypi, version := "*" }

/-- A registry on which `a` lists itself and `b` as requirements and
everything else is a 404. -/
def regSelf : Package → RegistryResponse :=
  fun p => if p.name = "a" then .jsonBody (some ["a==1", "b==1"]) else .notFound

/-- A registry on which every lookup is a 404. -/
def regEmpty : Package → RegistryResponse := fun _ => .notFound

/-- A registry on which `a` resolves and every other lookup is a network
error. -/
def regMixed : Package → RegistryResponse :=
  fun p => if p.name = "a" then .jsonBody (some ["c==1"]) else .fetchFailed

/-- A registry that always returns a body with one `requires_dist` entry. -/
def regDist : Package → RegistryResponse := fun _ => .jsonBody (some ["a==1"])

/-- The trivial annotator: no package has known vulnerabilities. -/
def annNone : Package → Option VulnerabilityContainer := fun _ => none

/-- The per-package lookup failures the provider catches: a rejected fetch
(network error), a non-ok response (registry 404), or a body whose JSON
parsing throws (malformed response). -/
def lookupFailed (r : RegistryResponse) : Prop :=
  r = .fetchFailed ∨ r = .notFound ∨ r = .malformedBody

/-- The untagged parse result of the requirement line `a==1`. -/
def pkgA1 : Package := { name := "a", version := "1" }

/-- The untagged parse result of the requirement line `b==1`. -/
def pkgB1 : Package := { name := "b", version := "1" }

/-- Level 0 of the build of manifest `[pkgA]` against `regSelf`. -/
def selfLevel0 : PackageNetworkLevel :=
  { packages := [rootPackage, pkgA],
    dependencies := [{ «from» := rootPackage, «to» := pkgA }] }

/-- Level 1 of the build of manifest `[pkgA]` against `regSelf`: it keeps the
self-looping edge `a@1 → a@1` even though `a@1` was claimed by level 0. -/
def selfLevel1 : PackageNetworkLevel :=
  { packages := [pkgB1],
    dependencies := [{ «from» := pkgA, «to» := pkgA1 },
                     { «from» := pkgA, «to» := pkgB1 }] }

/-- The network produced by building manifest `[pkgA]` against `regSelf` with
`maxLevels = 2`. -/
def netSelf : PackageNetwork := { levels := [selfLevel0, selfLevel1] }

/-! ## Lemmas about parsed package names

Names produced by `parsePackageEntry` consist of lower-cased name-class
characters; in particular they contain neither `'@'` (the key separator) nor
`' '` (present in the root's name), so a parsed package can never carry the
synthetic root's identity key. -/

theorem toLowerChar_nameChar {c : Char} (h : isNameChar c = true) :
    toLowerChar c ≠ '@' ∧ toLowerChar c ≠ ' ' := by
  by_cases hcase : 65 ≤ c.toNat ∧ c.toNat ≤ 90
  · obtain ⟨h1, h2⟩ := hcase
    obtain ⟨n, hn⟩ : ∃ n, c.toNat = n := ⟨_, rfl⟩
    rw [hn] at h1 h2
    have hc : Char.ofNat n = c := by rw [← hn]; exact Char.ofNat_toNat c
    interval_cases n <;> (rw [← hc]; exact ⟨by decide, by decide⟩)
  · have hfix : toLowerChar c = c := by unfold toLowerChar; rw [if_neg hcase]
    rw [hfix]
    constructor <;> intro he <;> (rw [he] at h; exact absurd h (by decide))

theorem parsePackageEntry_name_chars {rawEntry : String} {pkg : Package}
    (h : parsePackageEntry rawEntry = some pkg) :
    ∀ c ∈ pkg.name.data, c ≠ '@' ∧ c ≠ ' ' := by
  intro c hc
  unfold parsePackageEntry at h
  by_cases hemp : (rawEntry.data.takeWhile isNameChar).isEmpty
  · rw [if_pos hemp] at h; exact absurd h (by simp)
  · rw [if_neg hemp] at h
    have hname : pkg.name = cleanPackageName (String.mk (rawEntry.data.takeWhile isNameChar)) := by
      cases h; rfl
    rw [hname] at hc
    unfold cleanPackageName at hc
    simp only [String.data] at hc
    obtain ⟨c', hc', rfl⟩ := List.mem_map.mp hc
    exact toLowerChar_nameChar (List.mem_takeWhile_imp hc')

/-- If a separator occurs in neither left part, splitting at its first
occurrence is unambiguous. -/
theorem append_sep_eq {sep : Char} :
    ∀ {l1 r1 : List Char} {l2 r2 : List Char}, sep ∉ l1 → sep ∉ r1 →
      l1 ++ sep :: l2 = r1 ++ sep :: r2 → l1 = r1 := by
  intro l1
  induction l1 with
  | nil =>
    intro r1 l2 r2 _ hr1 h
    cases r1 with
    | nil => rfl
    | cons b bs =>
      simp only [List.nil_append, List.cons_append, List.cons.injEq] at h
      exact absurd (h.1 ▸ List.mem_cons_self b bs) hr1
  | cons a as ih =>
    intro r1 l2 r2 hl1 hr1 h
    cases r1 with
    | nil =>
      simp only [List.cons_append, List.nil_append, List.cons.injEq] at h
      exact absurd (h.1 ▸ List.mem_cons_self a as) hl1
    | cons b bs =>
      simp only [List.cons_append, List.cons.injEq] at h
      have := ih (fun hm => hl1 (List.mem_cons_of_mem a hm))
        (fun hm => hr1 (List.mem_cons_of_mem b hm)) h.2
      rw [h.1, this]

theorem string_data_append (s t : String) : (s ++ t).data = s.data ++ t.data := by
  cases s; cases t; rfl

theorem key_ne_rootKey {name version : String}
    (h : ∀ c ∈ name.data, c ≠ '@' ∧ c ≠ ' ') :
    name ++ "@" ++ version ≠ createPackageKey rootPackage := by
  intro heq
  have hdata0 := congrArg String.data heq
  rw [string_data_append, string_data_append] at hdata0
  have hroot : (createPackageKey rootPackage).data =
      "Your Package".data ++ '@' :: "*".data := by decide
  rw [hroot] at hdata0
  have hdata : name.data ++ '@' :: version.data =
      "Your Package".data ++ '@' :: "*".data := by
    rw [← hdata0, List.append_assoc]
    rfl
  have hname : name.data = "Your Package".data :=
    append_sep_eq (fun hm => (h _ hm).1 rfl) (by decide) hdata
  have : (' ' : Char) ∈ name.data := by rw [hname]; decide
  exact (h _ this).2 rfl

theorem parsePackageEntry_key_ne_rootKey {rawEntry : String} {pkg : Package}
    (h : parsePackageEntry rawEntry = some pkg) :
    createPackageKey pkg ≠ createPackageKey rootPackage :=
  key_ne_rootKey (parsePackageEntry_name_chars h)

/-! ## Lemmas about the provider and the dispatch factory -/

theorem pythonExtractDependencies_mem {registry : Package → RegistryResponse}
    {pkg : Package} {d : Dependency}
    (h : d ∈ pythonExtractDependencies registry pkg) :
    d.«from» = pkg ∧ ∃ rawEntry, parsePackageEntry rawEntry = some d.«to» := by
  unfold pythonExtractDependencies buildDependencies at h
  obtain ⟨req, hreq, rfl⟩ := List.mem_map.mp h
  refine ⟨rfl, ?_⟩
  have : req ∈ parseRequirements
      (match getPackageVersionForAPI pkg,
        (match registry pkg with
          | .jsonBody rd => rd
          | _ => none) with
        | some v, some reqs => if v = "" then [] else reqs
        | _, _ => []) ∨ req ∈ ([] : List Package) := by
    unfold fetchRequiredPackages at hreq
    cases hr : registry pkg <;> rw [hr] at hreq <;> simp_all
  rcases this with hmem | hmem
  · obtain ⟨raw, _, hraw⟩ := List.mem_filterMap.mp hmem
    exact ⟨raw, hraw⟩
  · exact absurd hmem (List.not_mem_nil req)

theorem getProvider_ok {registry : Package → RegistryResponse} {pkg : Package}
    {provider : Package → List Dependency}
    (h : getProvider registry pkg = .ok provider) :
    provider = pythonExtractDependencies registry ∧ pkg.type = some PackageType.pypi := by
  unfold getProvider getPackageType at h
  cases htype : pkg.type with
  | none => rw [htype] at h; exact absurd h (by simp)
  | some t =>
    rw [htype] at h
    cases t with
    | npm => exact absurd h (by simp [providerRegistry])
    | pypi =>
      simp only [providerRegistry] at h
      cases h
      exact ⟨rfl, rfl⟩

theorem extractDependencies_mem {registry : Package → RegistryResponse}
    {packages : List Package} {ds : List Dependency}
    (h : extractDependencies registry packages = .ok ds) :
    ∀ d ∈ ds, d.«from» ∈ packages ∧
      createPackageKey d.«to» ≠ createPackageKey rootPackage := by
  intro d hd
  cases packages with
  | nil =>
    unfold extractDependencies at h
    cases h
    exact absurd hd (List.not_mem_nil d)
  | cons p rest =>
    unfold extractDependencies at h
    dsimp only at h
    cases hp : getProvider registry p with
    | error e => rw [hp] at h; exact absurd h (by simp)
    | ok provider =>
      rw [hp] at h
      cases h
      obtain ⟨hprov, _⟩ := getProvider_ok hp
      subst hprov
      obtain ⟨y, hy, hdy⟩ := List.mem_flatMap.mp hd
      obtain ⟨hfrom, raw, hraw⟩ := pythonExtractDependencies_mem hdy
      exact ⟨hfrom ▸ hy, parsePackageEntry_key_ne_rootKey hraw⟩

/-! ## Lemmas about the builder's running sets -/

theorem fup_processedDependencies (ps : List Package) : ∀ st : CreatorState,
    ((filterUniquePackages st ps).2).processedDependencies = st.processedDependencies := by
  induction ps with
  | nil => intro st; rfl
  | cons pkg rest ih =>
    intro st
    by_cases hmem : createPackageKey pkg ∈ st.processedPackages
    · simp only [filterUniquePackages, if_pos hmem]; exact ih st
    · simp only [filterUniquePackages, if_neg hmem]; exact ih _

theorem fup_processedPackages (ps : List Package) : ∀ st : CreatorState,
    ((filterUniquePackages st ps).2).processedPackages =
      ((filterUniquePackages st ps).1.map createPackageKey).reverse ++ st.processedPackages := by
  induction ps with
  | nil => intro st; rfl
  | cons pkg rest ih =>
    intro st
    by_cases hmem : createPackageKey pkg ∈ st.processedPackages
    · simp only [filterUniquePackages, if_pos hmem]; exact ih st
    · simp only [filterUniquePackages, if_neg hmem, List.map_cons,
        List.reverse_cons, List.append_assoc, List.singleton_append]
      exact ih _

theorem fup_subset (ps : List Package) : ∀ (st : CreatorState),
    ∀ p ∈ (filterUniquePackages st ps).1, p ∈ ps := by
  induction ps with
  | nil => intro st p hp; exact absurd hp (List.not_mem_nil p)
  | cons pkg rest ih =>
    intro st p hp
    by_cases hmem : createPackageKey pkg ∈ st.processedPackages
    · rw [filterUniquePackages, if_pos hmem] at hp
      exact List.mem_cons_of_mem pkg (ih st p hp)
    · rw [filterUniquePackages, if_neg hmem] at hp
      rcases List.mem_cons.mp hp with rfl | hp'
      · exact List.mem_cons_self p rest
      · exact List.mem_cons_of_mem pkg (ih _ p hp')

theorem fup_keys_fresh (ps : List Package) : ∀ (st : CreatorState),
    ∀ k ∈ (filterUniquePackages st ps).1.map createPackageKey,
      k ∉ st.processedPackages := by
  induction ps with
  | nil => intro st k hk; exact absurd hk (by simp [filterUniquePackages])
  | cons pkg rest ih =>
    intro st k hk
    by_cases hmem : createPackageKey pkg ∈ st.processedPackages
    · rw [filterUniquePackages, if_pos hmem] at hk
      exact ih st k hk
    · rw [filterUniquePackages, if_neg hmem] at hk
      simp only [List.map_cons, List.mem_cons] at hk
      rcases hk with rfl | hk'
      · exact hmem
      · intro hin
        exact ih _ k hk' (List.mem_cons_of_mem _ hin)

theorem fup_keys_nodup (ps : List Package) : ∀ (st : CreatorState),
    ((filterUniquePackages st ps).1.map createPackageKey).Nodup := by
  induction ps with
  | nil => intro st; simp [filterUniquePackages]
  | cons pkg rest ih =>
    intro st
    by_cases hmem : createPackageKey pkg ∈ st.processedPackages
    · rw [filterUniquePackages, if_pos hmem]; exact ih st
    · rw [filterUniquePackages, if_neg hmem]
      simp only [List.map_cons, List.nodup_cons]
      refine ⟨fun hin => ?_, ih _⟩
      exact fup_keys_fresh rest _ _ hin (List.mem_cons_self _ _)

theorem fup_input_claimed (ps : List Package) : ∀ (st : CreatorState),
    ∀ p ∈ ps, createPackageKey p ∈ ((filterUniquePackages st ps).2).processedPackages := by
  induction ps with
  | nil => intro st p hp; exact absurd hp (List.not_mem_nil p)
  | cons pkg rest ih =>
    intro st p hp
    by_cases hmem : createPackageKey pkg ∈ st.processedPackages
    · rw [filterUniquePackages, if_pos hmem]
      rcases List.mem_cons.mp hp with rfl | hp'
      · rw [fup_processedPackages]
        exact List.mem_append_right _ hmem
      · exact ih st p hp'
    · rw [filterUniquePackages, if_neg hmem]
      rcases List.mem_cons.mp hp with rfl | hp'
      · show createPackageKey p ∈ ((filterUniquePackages _ rest).2).processedPackages
        rw [fup_processedPackages]
        exact List.mem_append_right _ (List.mem_cons_self _ _)
      · exact ih _ p hp'

theorem fup_output_claimed (ps : List Package) (st : CreatorState) :
    ∀ p ∈ (filterUniquePackages st ps).1,
      createPackageKey p ∈ ((filterUniquePackages st ps).2).processedPackages := by
  intro p hp
  rw [fup_processedPackages]
  refine List.mem_append_left _ ?_
  rw [List.mem_reverse]
  exact List.mem_map_of_mem createPackageKey hp

theorem fud_processedPackages (ds : List Dependency) : ∀ st : CreatorState,
    ((filterUniqueDependencies st ds).2).processedPackages = st.processedPackages := by
  induction ds with
  | nil => intro st; rfl
  | cons d rest ih =>
    intro st
    by_cases hmem : createDependencyKey d ∈ st.processedDependencies
    · simp only [filterUniqueDependencies, if_pos hmem]; exact ih st
    · simp only [filterUniqueDependencies, if_neg hmem]; exact ih _

theorem fud_subset (ds : List Dependency) : ∀ (st : CreatorState),
    ∀ d ∈ (filterUniqueDependencies st ds).1, d ∈ ds := by
  induction ds with
  | nil => intro st d hd; exact absurd hd (List.not_mem_nil d)
  | cons dep rest ih =>
    intro st d hd
    by_cases hmem : createDependencyKey dep ∈ st.processedDependencies
    · rw [filterUniqueDependencies, if_pos hmem] at hd
      exact List.mem_cons_of_mem dep (ih st d hd)
    · rw [filterUniqueDependencies, if_neg hmem] at hd
      rcases List.mem_cons.mp hd with rfl | hd'
      · exact List.mem_cons_self d rest
      · exact List.mem_cons_of_mem dep (ih _ d hd')

theorem exud_ok {registry : Package → RegistryResponse} {st : CreatorState}
    {cur : List Package} {ds : List Dependency} {st1 : CreatorState}
    (h : extractUniqueDependencies registry st cur = .ok (ds, st1)) :
    st1.processedPackages = st.processedPackages ∧
      ∀ d ∈ ds, d.«from» ∈ cur ∧
        createPackageKey d.«to» ≠ createPackageKey rootPackage := by
  unfold extractUniqueDependencies at h
  cases hex : extractDependencies registry cur with
  | error e => rw [hex] at h; exact absurd h (by simp)
  | ok allDeps =>
    rw [hex] at h
    simp only [Except.ok.injEq] at h
    have h1 : ds = (filterUniqueDependencies st allDeps).1 := by rw [h]
    have h2 : st1 = (filterUniqueDependencies st allDeps).2 := by rw [h]
    constructor
    · rw [h2, fud_processedPackages]
    · intro d hd
      rw [h1] at hd
      exact extractDependencies_mem hex d (fud_subset allDeps st d hd)

theorem cnl_mem {st : CreatorState} {ds : List Dependency} {p : Package}
    (h : p ∈ collectNextLevelPackages st ds) :
    (∃ d ∈ ds, d.«to» = p) ∧ createPackageKey p ∉ st.processedPackages := by
  unfold collectNextLevelPackages at h
  obtain ⟨d, hd, hopt⟩ := List.mem_filterMap.mp h
  by_cases hmem : createPackageKey d.«to» ∈ st.processedPackages
  · rw [if_pos hmem] at hopt; exact absurd hopt (by simp)
  · rw [if_neg hmem] at hopt
    cases hopt
    exact ⟨⟨d, hd, rfl⟩, hmem⟩

theorem cnl_mem_of {st : CreatorState} {ds : List Dependency} {d : Dependency}
    (hd : d ∈ ds) (h : createPackageKey d.«to» ∉ st.processedPackages) :
    d.«to» ∈ collectNextLevelPackages st ds := by
  unfold collectNextLevelPackages
  exact List.mem_filterMap.mpr ⟨d, hd, by rw [if_neg h]⟩

theorem addVulnerabilities_keys (ann : Package → Option VulnerabilityContainer)
    (ps : List Package) :
    (addVulnerabilities ann ps).map createPackageKey = ps.map createPackageKey := by
  unfold addVulnerabilities
  rw [List.map_map]
  rfl

/-! ## Lemmas about the level loop -/

theorem pdl_nil (registry : Package → RegistryResponse)
    (ann : Package → Option VulnerabilityContainer) :
    ∀ (n : Nat) (st : CreatorState),
      processDependencyLevels registry ann n [] st = .ok [] := by
  intro n st
  cases n with
  | zero => rfl
  | succ m => rfl

theorem pdl_length (registry : Package → RegistryResponse)
    (ann : Package → Option VulnerabilityContainer) :
    ∀ (n : Nat) (cur : List Package) (st : CreatorState)
      (levels : List PackageNetworkLevel),
      processDependencyLevels registry ann n cur st = .ok levels →
      levels.length ≤ n := by
  intro n
  induction n with
  | zero =>
    intro cur st levels h
    cases h
    exact Nat.le_refl 0
  | succ remaining ih =>
    intro cur st levels h
    rw [processDependencyLevels] at h
    cases hex : extractUniqueDependencies registry st cur with
    | error e =>
      rw [hex] at h
      exact absurd h (by simp)
    | ok pair =>
      obtain ⟨ds, st1⟩ := pair
      rw [hex] at h
      dsimp only at h
      by_cases hde : ds.isEmpty
      · rw [if_pos hde] at h
        cases h
        exact Nat.zero_le _
      · rw [if_neg hde] at h
        rcases hfu : filterUniquePackages st1 (collectNextLevelPackages st1 ds) with ⟨u, st2⟩
        rw [hfu] at h
        dsimp only at h
        by_cases hu : u.isEmpty
        · rw [if_pos hu] at h
          cases h
          exact Nat.zero_le _
        · rw [if_neg hu] at h
          cases hrec : processDependencyLevels registry ann remaining u st2 with
          | error e =>
            rw [hrec] at h
            exact absurd h (by simp)
          | ok rest =>
            rw [hrec] at h
            dsimp only at h
            cases h
            exact Nat.succ_le_succ (ih u st2 rest hrec)

theorem levelsPackageKeys_cons (L : PackageNetworkLevel)
    (rest : List PackageNetworkLevel) :
    levelsPackageKeys (L :: rest) = levelPackageKeys L ++ levelsPackageKeys rest := by
  simp [levelsPackageKeys]

theorem pdl_levels_nonempty (registry : Package → RegistryResponse)
    (ann : Package → Option VulnerabilityContainer) :
    ∀ (n : Nat) (cur : List Package) (st : CreatorState)
      (levels : List PackageNetworkLevel),
      processDependencyLevels registry ann n cur st = .ok levels →
      ∀ L ∈ levels, L.packages ≠ [] ∧ L.dependencies ≠ [] := by
  intro n
  induction n with
  | zero =>
    intro cur st levels h L hL
    cases h
    exact absurd hL (List.not_mem_nil L)
  | succ remaining ih =>
    intro cur st levels h L hL
    rw [processDependencyLevels] at h
    cases hex : extractUniqueDependencies registry st cur with
    | error e => rw [hex] at h; exact absurd h (by simp)
    | ok pair =>
      obtain ⟨ds, st1⟩ := pair
      rw [hex] at h
      dsimp only at h
      by_cases hde : ds.isEmpty
      · rw [if_pos hde] at h
        cases h
        exact absurd hL (List.not_mem_nil L)
      · rw [if_neg hde] at h
        rcases hfu : filterUniquePackages st1 (collectNextLevelPackages st1 ds) with ⟨u, st2⟩
        rw [hfu] at h
        dsimp only at h
        by_cases hu : u.isEmpty
        · rw [if_pos hu] at h
          cases h
          exact absurd hL (List.not_mem_nil L)
        · rw [if_neg hu] at h
          cases hrec : processDependencyLevels registry ann remaining u st2 with
          | error e => rw [hrec] at h; exact absurd h (by simp)
          | ok rest =>
            rw [hrec] at h
            dsimp only at h
            cases h
            rcases List.mem_cons.mp hL with rfl | hL'
            · constructor
              · intro hnil
                have : u = [] := by
                  have := congrArg List.length hnil
                  simp [addVulnerabilities] at this
                  exact this
                rw [this] at hu
                exact hu rfl
              · intro hnil
                dsimp only at hnil
                rw [hnil] at hde
                exact hde rfl
            · exact ih u st2 rest hrec L hL'

theorem pdl_keys (registry : Package → RegistryResponse)
    (ann : Package → Option VulnerabilityContainer) :
    ∀ (n : Nat) (cur : List Package) (st : CreatorState)
      (levels : List PackageNetworkLevel),
      processDependencyLevels registry ann n cur st = .ok levels →
      st.processedPackages.Nodup →
      (levelsPackageKeys levels).Nodup ∧
        (∀ k ∈ levelsPackageKeys levels, k ∉ st.processedPackages) ∧
        createPackageKey rootPackage ∉ levelsPackageKeys levels := by
  intro n
  induction n with
  | zero =>
    intro cur st levels h _
    cases h
    exact ⟨List.nodup_nil, fun k hk => absurd hk (List.not_mem_nil k),
      List.not_mem_nil _⟩
  | succ remaining ih =>
    intro cur st levels h hnd
    rw [processDependencyLevels] at h
    cases hex : extractUniqueDependencies registry st cur with
    | error e => rw [hex] at h; exact absurd h (by simp)
    | ok pair =>
      obtain ⟨ds, st1⟩ := pair
      rw [hex] at h
      dsimp only at h
      obtain ⟨hst1, hfr⟩ := exud_ok hex
      by_cases hde : ds.isEmpty
      · rw [if_pos hde] at h
        cases h
        exact ⟨List.nodup_nil, fun k hk => absurd hk (List.not_mem_nil k),
          List.not_mem_nil _⟩
      · rw [if_neg hde] at h
        rcases hfu : filterUniquePackages st1 (collectNextLevelPackages st1 ds) with ⟨u, st2⟩
        rw [hfu] at h
        dsimp only at h
        have hukeys : (u.map createPackageKey).Nodup := by
          have := fup_keys_nodup (collectNextLevelPackages st1 ds) st1
          rw [hfu] at this
          exact this
        have hufresh : ∀ k ∈ u.map createPackageKey, k ∉ st1.processedPackages := by
          have := fup_keys_fresh (collectNextLevelPackages st1 ds) st1
          rw [hfu] at this
          exact this
        have husub : ∀ p ∈ u, p ∈ collectNextLevelPackages st1 ds := by
          have := fup_subset (collectNextLevelPackages st1 ds) st1
          rw [hfu] at this
          exact this
        have hpp2 : st2.processedPackages =
            (u.map createPackageKey).reverse ++ st1.processedPackages := by
          have := fup_processedPackages (collectNextLevelPackages st1 ds) st1
          rw [hfu] at this
          exact this
        by_cases hu : u.isEmpty
        · rw [if_pos hu] at h
          cases h
          exact ⟨List.nodup_nil, fun k hk => absurd hk (List.not_mem_nil k),
            List.not_mem_nil _⟩
        · rw [if_neg hu] at h
          cases hrec : processDependencyLevels registry ann remaining u st2 with
          | error e => rw [hrec] at h; exact absurd h (by simp)
          | ok rest =>
            rw [hrec] at h
            dsimp only at h
            cases h
            have hnd2 : st2.processedPackages.Nodup := by
              rw [hpp2]
              rw [List.nodup_append]
              refine ⟨List.nodup_reverse.mpr hukeys, hst1 ▸ hnd, ?_⟩
              intro k hk
              exact hufresh k (List.mem_reverse.mp hk)
            obtain ⟨ihnd, ihfresh, ihroot⟩ := ih u st2 rest hrec hnd2
            have hLkeys : levelPackageKeys
                { packages := addVulnerabilities ann u, dependencies := ds } =
                u.map createPackageKey := addVulnerabilities_keys ann u
            have hmem2 : ∀ k ∈ u.map createPackageKey, k ∈ st2.processedPackages := by
              intro k hk
              rw [hpp2]
              exact List.mem_append_left _ (List.mem_reverse.mpr hk)
            have hrootu : createPackageKey rootPackage ∉ u.map createPackageKey := by
              intro hmem
              obtain ⟨p, hp, hkey⟩ := List.mem_map.mp hmem
              obtain ⟨⟨d, hd, hdto⟩, _⟩ := cnl_mem (husub p hp)
              exact (hfr d hd).2 (hdto ▸ hkey)
            rw [levelsPackageKeys_cons, hLkeys]
            refine ⟨?_, ?_, ?_⟩
            · rw [List.nodup_append]
              refine ⟨hukeys, ihnd, ?_⟩
              intro k hk hk'
              exact ihfresh k hk' (hmem2 k hk)
            · intro k hk
              rcases List.mem_append.mp hk with hk' | hk'
              · exact fun hin => hufresh k hk' (hst1 ▸ hin)
              · intro hin
                refine ihfresh k hk' ?_
                rw [hpp2, hst1]
                exact List.mem_append_right _ hin
            · intro hmem
              rcases List.mem_append.mp hmem with hk' | hk'
              · exact hrootu hk'
              · exact ihroot hk'

theorem chainOK_mono : ∀ (levels : List PackageNetworkLevel)
    {pk pk' cl cl' : List String},
    (∀ x ∈ pk, x ∈ pk') → (∀ x ∈ cl, x ∈ cl') →
    chainOK pk cl levels → chainOK pk' cl' levels := by
  intro levels
  induction levels with
  | nil => intro pk pk' cl cl' _ _ _; trivial
  | cons L rest ih =>
    intro pk pk' cl cl' hpk hcl hch
    obtain ⟨hedge, hrest⟩ := hch
    refine ⟨?_, ?_⟩
    · intro e he
      obtain ⟨h1, h2⟩ := hedge e he
      refine ⟨hpk _ h1, ?_⟩
      rcases List.mem_append.mp h2 with h' | h'
      · exact List.mem_append_left _ (hcl _ h')
      · exact List.mem_append_right _ h'
    · refine ih (fun x hx => hx) ?_ hrest
      intro x hx
      rcases List.mem_append.mp hx with h' | h'
      · exact List.mem_append_left _ (hcl _ h')
      · exact List.mem_append_right _ h'

theorem pdl_chain (registry : Package → RegistryResponse)
    (ann : Package → Option VulnerabilityContainer) :
    ∀ (n : Nat) (cur : List Package) (st : CreatorState)
      (levels : List PackageNetworkLevel),
      processDependencyLevels registry ann n cur st = .ok levels →
      chainOK (cur.map createPackageKey) st.processedPackages levels := by
  intro n
  induction n with
  | zero =>
    intro cur st levels h
    cases h
    trivial
  | succ remaining ih =>
    intro cur st levels h
    rw [processDependencyLevels] at h
    cases hex : extractUniqueDependencies registry st cur with
    | error e => rw [hex] at h; exact absurd h (by simp)
    | ok pair =>
      obtain ⟨ds, st1⟩ := pair
      rw [hex] at h
      dsimp only at h
      obtain ⟨hst1, hfr⟩ := exud_ok hex
      by_cases hde : ds.isEmpty
      · rw [if_pos hde] at h
        cases h
        trivial
      · rw [if_neg hde] at h
        rcases hfu : filterUniquePackages st1 (collectNextLevelPackages st1 ds) with ⟨u, st2⟩
        rw [hfu] at h
        dsimp only at h
        have hpp2 : st2.processedPackages =
            (u.map createPackageKey).reverse ++ st1.processedPackages := by
          have := fup_processedPackages (collectNextLevelPackages st1 ds) st1
          rw [hfu] at this
          exact this
        by_cases hu : u.isEmpty
        · rw [if_pos hu] at h
          cases h
          trivial
        · rw [if_neg hu] at h
          cases hrec : processDependencyLevels registry ann remaining u st2 with
          | error e => rw [hrec] at h; exact absurd h (by simp)
          | ok rest =>
            rw [hrec] at h
            dsimp only at h
            cases h
            have hLkeys : levelPackageKeys
                { packages := addVulnerabilities ann u, dependencies := ds } =
                u.map createPackageKey := addVulnerabilities_keys ann u
            constructor
            · intro e he
              obtain ⟨hfrom, _⟩ := hfr e he
              refine ⟨List.mem_map_of_mem createPackageKey hfrom, ?_⟩
              rw [hLkeys]
              by_cases hclaim : createPackageKey e.«to» ∈ st1.processedPackages
              · exact List.mem_append_left _ (hst1 ▸ hclaim)
              · have hc : e.«to» ∈ collectNextLevelPackages st1 ds :=
                  cnl_mem_of he hclaim
                have := fup_input_claimed (collectNextLevelPackages st1 ds) st1 _ hc
                rw [hfu] at this
                rw [hpp2] at this
                rcases List.mem_append.mp this with h' | h'
                · exact List.mem_append_right _ (List.mem_reverse.mp h')
                · exact absurd h' hclaim
            · rw [hLkeys]
              refine chainOK_mono rest (fun x hx => hx) ?_ (ih u st2 rest hrec)
              intro x hx
              rw [hpp2] at hx
              rcases List.mem_append.mp hx with h' | h'
              · exact List.mem_append_right _ (List.mem_reverse.mp h')
              · exact List.mem_append_left _ (hst1 ▸ h')

theorem pdl_selfloop (registry : Package → RegistryResponse)
    (ann : Package → Option VulnerabilityContainer) :
    ∀ (n : Nat) (cur : List Package) (st : CreatorState)
      (levels : List PackageNetworkLevel),
      processDependencyLevels registry ann n cur st = .ok levels →
      (∀ p ∈ cur, createPackageKey p ∈ st.processedPackages) →
      selfLoopSafe levels := by
  intro n
  induction n with
  | zero =>
    intro cur st levels h _
    cases h
    trivial
  | succ remaining ih =>
    intro cur st levels h hcur
    rw [processDependencyLevels] at h
    cases hex : extractUniqueDependencies registry st cur with
    | error e => rw [hex] at h; exact absurd h (by simp)
    | ok pair =>
      obtain ⟨ds, st1⟩ := pair
      rw [hex] at h
      dsimp only at h
      obtain ⟨hst1, hfr⟩ := exud_ok hex
      by_cases hde : ds.isEmpty
      · rw [if_pos hde] at h
        cases h
        trivial
      · rw [if_neg hde] at h
        rcases hfu : filterUniquePackages st1 (collectNextLevelPackages st1 ds) with ⟨u, st2⟩
        rw [hfu] at h
        dsimp only at h
        have hufresh : ∀ k ∈ u.map createPackageKey, k ∉ st1.processedPackages := by
          have := fup_keys_fresh (collectNextLevelPackages st1 ds) st1
          rw [hfu] at this
          exact this
        have hclaimed : ∀ p ∈ u, createPackageKey p ∈ st2.processedPackages := by
          have := fup_output_claimed (collectNextLevelPackages st1 ds) st1
          rw [hfu] at this
          exact this
        by_cases hu : u.isEmpty
        · rw [if_pos hu] at h
          cases h
          trivial
        · rw [if_neg hu] at h
          cases hrec : processDependencyLevels registry ann remaining u st2 with
          | error e => rw [hrec] at h; exact absurd h (by simp)
          | ok rest =>
            rw [hrec] at h
            dsimp only at h
            cases h
            have hLkeys : levelPackageKeys
                { packages := addVulnerabilities ann u, dependencies := ds } =
                u.map createPackageKey := addVulnerabilities_keys ann u
            constructor
            · intro e he hself hmem
              rw [hLkeys] at hmem
              obtain ⟨hfrom, _⟩ := hfr e he
              have : createPackageKey e.«from» ∈ st1.processedPackages :=
                hst1 ▸ hcur _ hfrom
              rw [hself] at this
              exact hufresh _ hmem this
            · exact ih u st2 rest hrec hclaimed

/-! ## Lemmas about `create` -/

/-- Every successful build decomposes into the deduplicated direct
dependencies `u`, the resulting claimed state `st'`, a root level of the fixed
shape, and the levels the loop produced from it. (When `u` is empty the two
branches of `createRootLevel` coincide, since annotating or root-linking an
empty list yields an empty list.) -/
theorem create_ok_cases {registry : Package → RegistryResponse}
    {ann : Package → Option VulnerabilityContainer}
    {extractedPackages : Except ExtractionError (List Package)}
    {maxLevels : Nat} {net : PackageNetwork}
    (h : create registry ann extractedPackages maxLevels = .ok net) :
    ∃ (ds u : List Package) (st' : CreatorState) (L0 : PackageNetworkLevel)
      (rest : List PackageNetworkLevel),
      extractedPackages = .ok ds ∧
      filterUniquePackages initialState ds = (u, st') ∧
      L0 = { packages := rootPackage :: addVulnerabilities ann u,
             dependencies := createDependencies rootPackage u } ∧
      processDependencyLevels registry ann (maxLevels - 1)
        (extractPackagesFromLevel L0) st' = .ok rest ∧
      net.levels = L0 :: rest := by
  unfold create at h
  cases hcr : createRootLevel ann extractedPackages initialState with
  | error e => rw [hcr] at h; exact absurd h (by simp)
  | ok pair =>
    obtain ⟨L0, st'⟩ := pair
    rw [hcr] at h
    dsimp only at h
    cases hpdl : processDependencyLevels registry ann (maxLevels - 1)
        (extractPackagesFromLevel L0) st' with
    | error e => rw [hpdl] at h; exact absurd h (by simp)
    | ok rest =>
      rw [hpdl] at h
      dsimp only at h
      cases h
      unfold createRootLevel at hcr
      cases extractedPackages with
      | error e => exact absurd hcr (by simp)
      | ok ds =>
        dsimp only at hcr
        rcases hfu : filterUniquePackages initialState ds with ⟨u, st''⟩
        rw [hfu] at hcr
        dsimp only at hcr
        by_cases hu : u.isEmpty
        · rw [if_pos hu] at hcr
          have hun : u = [] := List.isEmpty_eq_true.mp hu
          cases hcr
          refine ⟨ds, u, st', _, rest, rfl, hfu, ?_, hpdl, rfl⟩
          rw [hun]
          rfl
        · rw [if_neg hu] at hcr
          cases hcr
          exact ⟨ds, u, st', _, rest, rfl, hfu, rfl, hpdl, rfl⟩

/-- The key list of the produced root level is the root key followed by the
keys of the deduplicated direct dependencies. -/
theorem rootLevel_keys (ann : Package → Option VulnerabilityContainer)
    (u : List Package) (deps : List Dependency) :
    levelPackageKeys { packages := rootPackage :: addVulnerabilities ann u,
                       dependencies := deps } =
      createPackageKey rootPackage :: u.map createPackageKey := by
  unfold levelPackageKeys
  dsimp only
  rw [List.map_cons, addVulnerabilities_keys]

/-- Packages surviving the root-name filter of `extractPackagesFromLevel` on
the root level all carry a key of a deduplicated direct dependency. -/
theorem extract_root_level_claimed (ann : Package → Option VulnerabilityContainer)
    (u : List Package) (deps : List Dependency) :
    ∀ p ∈ extractPackagesFromLevel
        { packages := rootPackage :: addVulnerabilities ann u, dependencies := deps },
      createPackageKey p ∈ u.map createPackageKey := by
  intro p hp
  unfold extractPackagesFromLevel at hp
  have hmem := List.mem_of_mem_filter hp
  have hpred := List.of_mem_filter hp
  dsimp only at hmem
  rcases List.mem_cons.mp hmem with rfl | hmem'
  · exact absurd hpred (by decide)
  · obtain ⟨q, hq, rfl⟩ := List.mem_map.mp hmem'
    exact (show createPackageKey q ∈ u.map createPackageKey from
      List.mem_map_of_mem createPackageKey hq)

/-- Adjacent-level conversion of the `chainOK` invariant. -/
theorem chainOK_adjacent : ∀ (front : List PackageNetworkLevel)
    {pk cl : List String} {levels : List PackageNetworkLevel}
    {L1 L2 : PackageNetworkLevel} {back : List PackageNetworkLevel},
    chainOK pk cl levels → levels = front ++ L1 :: L2 :: back →
    ∀ e ∈ L2.dependencies,
      createPackageKey e.«from» ∈ levelPackageKeys L1 ∧
      createPackageKey e.«to» ∈ cl ++ levelsPackageKeys (front ++ [L1, L2]) := by
  intro front
  induction front with
  | nil =>
    intro pk cl levels L1 L2 back hch heq e he
    subst heq
    obtain ⟨_, hedge2, _⟩ := hch
    obtain ⟨h1, h2⟩ := hedge2 e he
    refine ⟨h1, ?_⟩
    simp only [List.nil_append, levelsPackageKeys_cons, List.mem_append] at h2 ⊢
    rcases h2 with (h' | h') | h'
    · exact Or.inl h'
    · exact Or.inr (Or.inl h')
    · refine Or.inr (Or.inr ?_)
      simp [levelsPackageKeys, h']
  | cons F fr ih =>
    intro pk cl levels L1 L2 back hch heq e he
    subst heq
    obtain ⟨_, hrest⟩ := hch
    obtain ⟨h1, h2⟩ := ih hrest rfl e he
    refine ⟨h1, ?_⟩
    simp only [List.cons_append, levelsPackageKeys_cons, List.mem_append] at h2 ⊢
    rcases h2 with (h' | h') | h'
    · exact Or.inl h'
    · exact Or.inr (Or.inl h')
    · exact Or.inr (Or.inr h')

/-- A lookup failure makes the python provider contribute no edges. -/
theorem python_lookupFailed_empty {registry : Package → RegistryResponse}
    {x : Package} (h : lookupFailed (registry x)) :
    pythonExtractDependencies registry x = [] := by
  unfold pythonExtractDependencies buildDependencies fetchRequiredPackages
  rcases h with h | h | h <;> rw [h] <;> rfl

/-- On a batch whose first package is tagged pypi, the factory resolves every
package of the batch through the python provider and succeeds. -/
theorem extractDependencies_pypi (registry : Package → RegistryResponse)
    (p : Package) (rest : List Package) (hp : p.type = some PackageType.pypi) :
    extractDependencies registry (p :: rest) =
      .ok ((p :: rest).flatMap (pythonExtractDependencies registry)) := by
  unfold extractDependencies getProvider getPackageType
  dsimp only
  rw [hp]
  dsimp only [providerRegistry]

/-- C5. An empty extraction result yields the one-level root-only network, for
every registry, annotator and level bound. -/
theorem empty_manifest_single_level (registry : Package → RegistryResponse)
    (ann : Package → Option VulnerabilityContainer) (maxLevels : Nat) :
    create registry ann (.ok ([] : List Package)) maxLevels =
      .ok { levels := [{ packages := [rootPackage], dependencies := [] }] } := by
  unfold create
  rw [show createRootLevel ann (.ok []) initialState =
    .ok ({ packages := [rootPackage], dependencies := [] }, initialState) from rfl]
  dsimp only
  rw [show extractPackagesFromLevel
      { packages := [rootPackage], dependencies := [] } = [] from rfl]
  rw [pdl_nil registry ann (maxLevels - 1) initialState]

/-- C7. With `maxLevels = 0` the build still returns the full root level
(synthetic root, the manifest's direct dependencies, and one root edge per
direct dependency) as the single level of the network. -/
theorem maxLevels_zero_full_root_level (registry : Package → RegistryResponse)
    (ann : Package → Option VulnerabilityContainer) (ds : List Package) :
    ∃ (L0 : PackageNetworkLevel) (st' : CreatorState),
      createRootLevel ann (.ok ds) initialState = .ok (L0, st') ∧
      create registry ann (.ok ds) 0 = .ok { levels := [L0] } ∧
      rootPackage ∈ L0.packages ∧
      (∀ p ∈ ds, createPackageKey p ∈ levelPackageKeys L0) ∧
      (∀ p ∈ ds, ∃ e ∈ L0.dependencies, e.«from» = rootPackage ∧
        createPackageKey e.«to» = createPackageKey p) := by
  rcases hfu : filterUniquePackages initialState ds with ⟨u, st'⟩
  have hcr : createRootLevel ann (.ok ds) initialState =
      .ok ({ packages := rootPackage :: addVulnerabilities ann u,
             dependencies := createDependencies rootPackage u }, st') := by
    unfold createRootLevel
    dsimp only
    rw [hfu]
    dsimp only
    by_cases hu : u.isEmpty
    · rw [if_pos hu, List.isEmpty_eq_true.mp hu]
      rfl
    · rw [if_neg hu]
  have hukey : ∀ p ∈ ds, createPackageKey p ∈ u.map createPackageKey := by
    intro p hp
    have hclaim := fup_input_claimed ds initialState p hp
    rw [hfu] at hclaim
    have hpp := fup_processedPackages ds initialState
    rw [hfu] at hpp
    dsimp only at hpp hclaim
    rw [hpp] at hclaim
    simp only [initialState, List.append_nil, List.mem_reverse] at hclaim
    exact hclaim
  refine ⟨_, st', hcr, ?_, List.mem_cons_self _ _, ?_, ?_⟩
  · unfold create
    rw [hcr]
    dsimp only
    rw [show processDependencyLevels registry ann (0 - 1)
      (extractPackagesFromLevel
        { packages := rootPackage :: addVulnerabilities ann u,
          dependencies := createDependencies rootPackage u }) st' = .ok [] from rfl]
  · intro p hp
    rw [rootLevel_keys]
    exact List.mem_cons_of_mem _ (hukey p hp)
  · intro p hp
    obtain ⟨q, hq, hkey⟩ := List.mem_map.mp (hukey p hp)
    exact ⟨{ «from» := rootPackage, «to» := q },
      List.mem_map_of_mem _ hq, rfl, hkey⟩

/-- C6. For a positive level bound, every successful build returns at least
one and at most `maxLevels` levels. -/
theorem network_level_bounds (registry : Package → RegistryResponse)
    (ann : Package → Option VulnerabilityContainer)
    (extractedPackages : Except ExtractionError (List Package))
    (maxLevels : Nat) (net : PackageNetwork) (hpos : 1 ≤ maxLevels)
    (h : create registry ann extractedPackages maxLevels = .ok net) :
    net.levels.length ≤ maxLevels ∧ 1 ≤ net.levels.length := by
  obtain ⟨ds, u, st', L0, rest, _, _, _, hpdl, hlev⟩ := create_ok_cases h
  have hlen := pdl_length registry ann (maxLevels - 1) _ _ _ hpdl
  rw [hlev]
  constructor
  · simp only [List.length_cons]
    omega
  · simp

/-- Witness for C6 at the empty manifest with the default bound of 3. -/
theorem network_level_bounds_witness :
    1 ≤ 3 ∧
      (({ levels := [{ packages := [rootPackage], dependencies := [] }] } :
          PackageNetwork).levels.length ≤ 3 ∧
        1 ≤ ({ levels := [{ packages := [rootPackage], dependencies := [] }] } :
          PackageNetwork).levels.length) :=
  ⟨by decide, network_level_bounds regEmpty annNone (.ok []) 3
    { levels := [{ packages := [rootPackage], dependencies := [] }] }
    (by decide) rfl⟩

/-- C2. In every successful build from a manifest whose declared packages do
not carry the synthetic root's identity (both manifest processors lower-case
names, so no extracted package can), each package identity — the root's
included — occurs exactly once across all levels: the flattened key list of
the network has no duplicates. -/
theorem network_identity_unique (registry : Package → RegistryResponse)
    (ann : Package → Option VulnerabilityContainer) (ds : List Package)
    (maxLevels : Nat) (net : PackageNetwork)
    (hroot : ∀ p ∈ ds, createPackageKey p ≠ createPackageKey rootPackage)
    (h : create registry ann (.ok ds) maxLevels = .ok net) :
    (levelsPackageKeys net.levels).Nodup := by
  obtain ⟨ds', u, st', L0, rest, hds, hfu, hL0, hpdl, hlev⟩ := create_ok_cases h
  have hds' : ds' = ds := by
    injection hds with h'
    exact h'.symm
  subst hds'
  have hukeys : (u.map createPackageKey).Nodup := by
    have := fup_keys_nodup ds' initialState
    rw [hfu] at this
    exact this
  have husub : ∀ p ∈ u, p ∈ ds' := by
    have := fup_subset ds' initialState
    rw [hfu] at this
    exact this
  have hpp : st'.processedPackages = (u.map createPackageKey).reverse := by
    have := fup_processedPackages ds' initialState
    rw [hfu] at this
    dsimp only at this
    simpa [initialState] using this
  have hndst : st'.processedPackages.Nodup := by
    rw [hpp]
    exact List.nodup_reverse.mpr hukeys
  obtain ⟨hrestnd, hrestfresh, hrestroot⟩ :=
    pdl_keys registry ann (maxLevels - 1) _ _ _ hpdl hndst
  rw [hlev, levelsPackageKeys_cons, hL0, rootLevel_keys, List.cons_append,
    List.nodup_cons]
  constructor
  · intro hmem
    rcases List.mem_append.mp hmem with hmem' | hmem'
    · obtain ⟨q, hq, hkey⟩ := List.mem_map.mp hmem'
      exact hroot q (husub q hq) hkey
    · exact hrestroot hmem'
  · rw [List.nodup_append]
    refine ⟨hukeys, hrestnd, ?_⟩
    intro k hk hk'
    refine hrestfresh k hk' ?_
    rw [hpp]
    exact List.mem_reverse.mpr hk

/-- Witness for C2 on the concrete two-level build of `[pkgA]` against
`regSelf`. -/
theorem network_identity_unique_witness :
    (∀ p ∈ [pkgA], createPackageKey p ≠ createPackageKey rootPackage) ∧
      (levelsPackageKeys netSelf.levels).Nodup :=
  ⟨by decide, network_identity_unique regSelf annNone [pkgA] 2 netSelf
    (by decide) rfl⟩

/-- C1 (counterexample). Building the manifest `[a@1]` with `maxLevels = 2`
against a registry on which `a` requires itself and `b` yields `netSelf`,
whose level 1 contains the edge `a@1 → a@1` while `a@1` is NOT in level 1's
packages list (it was claimed by level 0) — refuting the claim that an edge's
target identity is always present in the edge's own level. -/
theorem edge_target_level_counterexample :
    create regSelf annNone (.ok [pkgA]) 2 = .ok netSelf ∧
      ({ «from» := pkgA, «to» := pkgA1 } : Dependency) ∈ selfLevel1.dependencies ∧
      createPackageKey ({ «from» := pkgA, «to» := pkgA1 } : Dependency).«to» ∉
        levelPackageKeys selfLevel1 :=
  ⟨rfl, by decide, by decide⟩

/-- C1 (amended). In every successful build, level-0 edges run from the
synthetic root to identities of level 0's own packages list, and for N ≥ 1
each edge of level N starts at an identity of level N-1's packages list and
ends at an identity present in SOME level M ≤ N (not necessarily level N
itself: surviving edges may point at identities claimed by earlier levels). -/
theorem edge_endpoints_amended (registry : Package → RegistryResponse)
    (ann : Package → Option VulnerabilityContainer)
    (extractedPackages : Except ExtractionError (List Package))
    (maxLevels : Nat) (net : PackageNetwork)
    (h : create registry ann extractedPackages maxLevels = .ok net) :
    (∀ L0 rest, net.levels = L0 :: rest →
        ∀ e ∈ L0.dependencies, e.«from» = rootPackage ∧
          createPackageKey e.«to» ∈ levelPackageKeys L0) ∧
    (∀ front L1 L2 back, net.levels = front ++ L1 :: L2 :: back →
        ∀ e ∈ L2.dependencies,
          createPackageKey e.«from» ∈ levelPackageKeys L1 ∧
          createPackageKey e.«to» ∈ levelsPackageKeys (front ++ [L1, L2])) := by
  obtain ⟨ds, u, st', L0', rest', hds, hfu, hL0, hpdl, hlev⟩ := create_ok_cases h
  have hchain := pdl_chain registry ann (maxLevels - 1) _ _ _ hpdl
  have hpp : st'.processedPackages = (u.map createPackageKey).reverse := by
    have := fup_processedPackages ds initialState
    rw [hfu] at this
    dsimp only at this
    simpa [initialState] using this
  have hstsub : ∀ k ∈ st'.processedPackages, k ∈ levelPackageKeys L0' := by
    intro k hk
    rw [hpp, List.mem_reverse] at hk
    rw [hL0, rootLevel_keys]
    exact List.mem_cons_of_mem _ hk
  have hcur : ∀ k ∈ (extractPackagesFromLevel L0').map createPackageKey,
      k ∈ levelPackageKeys L0' := by
    intro k hk
    obtain ⟨p, hp, rfl⟩ := List.mem_map.mp hk
    exact List.mem_map_of_mem createPackageKey
      (List.mem_of_mem_filter hp)
  constructor
  · intro L0 rest heq e he
    rw [hlev] at heq
    injection heq with h1 h2
    subst h1
    rw [hL0] at he
    dsimp only [createDependencies] at he
    obtain ⟨p, hp, rfl⟩ := List.mem_map.mp he
    refine ⟨rfl, ?_⟩
    rw [hL0, rootLevel_keys]
    exact List.mem_cons_of_mem _
      (show createPackageKey p ∈ u.map createPackageKey from
        List.mem_map_of_mem createPackageKey hp)
  · intro front L1 L2 back heq e he
    rw [hlev] at heq
    cases front with
    | nil =>
      simp only [List.nil_append] at heq
      injection heq with h1 h2
      subst h1
      rw [h2] at hchain
      obtain ⟨hedge, _⟩ := hchain
      obtain ⟨hf, ht⟩ := hedge e he
      refine ⟨hcur _ hf, ?_⟩
      simp only [List.nil_append, levelsPackageKeys_cons, List.mem_append]
      rcases List.mem_append.mp ht with h' | h'
      · exact Or.inl (hstsub _ h')
      · exact Or.inr (Or.inl h')
    | cons F fr =>
      simp only [List.cons_append] at heq
      injection heq with h1 h2
      subst h1
      obtain ⟨hf, ht⟩ := chainOK_adjacent fr hchain h2 e he
      refine ⟨hf, ?_⟩
      simp only [List.cons_append, levelsPackageKeys_cons, List.mem_append]
      rcases List.mem_append.mp ht with h' | h'
      · exact Or.inl (hstsub _ h')
      · exact Or.inr h'

/-- Witness for the amended C1, instantiated on the self-loop edge of the
concrete build `netSelf`: its source identity is listed at level 0 and its
target identity appears in the union of levels 0 and 1. -/
theorem edge_endpoints_amended_witness :
    createPackageKey ({ «from» := pkgA, «to» := pkgA1 } : Dependency).«from» ∈
        levelPackageKeys selfLevel0 ∧
      createPackageKey ({ «from» := pkgA, «to» := pkgA1 } : Dependency).«to» ∈
        levelsPackageKeys ([] ++ [selfLevel0, selfLevel1]) :=
  (edge_endpoints_amended regSelf annNone (.ok [pkgA]) 2 netSelf rfl).2
    [] selfLevel0 selfLevel1 []
    rfl { «from» := pkgA, «to» := pkgA1 } (by decide)

/-- C8 (counterexample). The build of `[a@1]` against `regSelf` puts the edge
`a@1 → a@1` into the network: its source identity equals its target identity,
so a self-loop is NOT rejected at edge-construction time
(`buildDependencies` performs no such check). -/
theorem selfloop_edge_counterexample :
    create regSelf annNone (.ok [pkgA]) 2 = .ok netSelf ∧
      ({ «from» := pkgA, «to» := pkgA1 } : Dependency) ∈ selfLevel1.dependencies ∧
      createPackageKey ({ «from» := pkgA, «to» := pkgA1 } : Dependency).«from» =
        createPackageKey ({ «from» := pkgA, «to» := pkgA1 } : Dependency).«to» :=
  ⟨rfl, by decide, by decide⟩

/-- C8 (amended). Self-looping edges are not rejected and can occur in levels
N ≥ 1, but they are inert: in every successful build, level-0 edges are never
self-loops, and a self-looping edge of a later level never has its target
identity listed among that level's own packages (the identity was already
claimed by an earlier level). -/
theorem selfloop_edges_amended (registry : Package → RegistryResponse)
    (ann : Package → Option VulnerabilityContainer) (ds : List Package)
    (maxLevels : Nat) (net : PackageNetwork)
    (hroot : ∀ p ∈ ds, createPackageKey p ≠ createPackageKey rootPackage)
    (h : create registry ann (.ok ds) maxLevels = .ok net) :
    ∀ L0 rest, net.levels = L0 :: rest →
      (∀ e ∈ L0.dependencies,
          createPackageKey e.«from» ≠ createPackageKey e.«to») ∧
      selfLoopSafe rest := by
  obtain ⟨ds', u, st', L0', rest', hds, hfu, hL0, hpdl, hlev⟩ := create_ok_cases h
  have hds' : ds' = ds := by
    injection hds with h'
    exact h'.symm
  subst hds'
  have husub : ∀ p ∈ u, p ∈ ds' := by
    have := fup_subset ds' initialState
    rw [hfu] at this
    exact this
  have hpp : st'.processedPackages = (u.map createPackageKey).reverse := by
    have := fup_processedPackages ds' initialState
    rw [hfu] at this
    dsimp only at this
    simpa [initialState] using this
  intro L0 rest heq
  rw [hlev] at heq
  injection heq with h1 h2
  subst h1
  subst h2
  constructor
  · intro e he
    rw [hL0] at he
    dsimp only [createDependencies] at he
    obtain ⟨p, hp, rfl⟩ := List.mem_map.mp he
    intro hkey
    exact hroot p (husub p hp) hkey.symm
  · refine pdl_selfloop registry ann (maxLevels - 1) _ _ _ hpdl ?_
    intro p hp
    rw [hL0] at hp
    have := extract_root_level_claimed ann u _ p hp
    rw [hpp]
    exact List.mem_reverse.mpr this

/-- Witness for the amended C8 on the concrete build `netSelf`: the level-0
edge is no self-loop, and the self-loops of the remaining levels never list
their target in their own level. -/
theorem selfloop_edges_amended_witness :
    createPackageKey ({ «from» := rootPackage, «to» := pkgA } : Dependency).«from» ≠
        createPackageKey ({ «from» := rootPackage, «to» := pkgA } : Dependency).«to» ∧
      selfLoopSafe [selfLevel1] := by
  have H := selfloop_edges_amended regSelf annNone [pkgA] 2 netSelf
    (by decide) rfl selfLevel0 [selfLevel1] rfl
  exact ⟨H.1 _ (by decide), H.2⟩

/-- C9. The level loop stops without emitting a level when zero edges survive
the seen-edges filter, and likewise when edges survive but zero of their
targets survive the claimed-identity filter; consequently no successful build
contains a level with an empty packages list, nor a level beyond level 0 with
an empty dependencies list. -/
theorem level_loop_stop_conditions (registry : Package → RegistryResponse)
    (ann : Package → Option VulnerabilityContainer) :
    (∀ (n : Nat) (cur : List Package) (st st1 : CreatorState),
        extractUniqueDependencies registry st cur = .ok ([], st1) →
        processDependencyLevels registry ann (n + 1) cur st = .ok []) ∧
    (∀ (n : Nat) (cur : List Package) (st : CreatorState)
        (ds : List Dependency) (st1 st2 : CreatorState),
        extractUniqueDependencies registry st cur = .ok (ds, st1) →
        filterUniquePackages st1 (collectNextLevelPackages st1 ds) = ([], st2) →
        processDependencyLevels registry ann (n + 1) cur st = .ok []) ∧
    (∀ (extractedPackages : Except ExtractionError (List Package))
        (maxLevels : Nat) (net : PackageNetwork),
        create registry ann extractedPackages maxLevels = .ok net →
        (∀ L ∈ net.levels, L.packages ≠ []) ∧
        (∀ L0 rest, net.levels = L0 :: rest → ∀ L ∈ rest, L.dependencies ≠ [])) := by
  refine ⟨?_, ?_, ?_⟩
  · intro n cur st st1 hex
    rw [processDependencyLevels, hex]
    dsimp only
    simp
  · intro n cur st ds st1 st2 hex hfu
    rw [processDependencyLevels, hex]
    dsimp only
    by_cases hde : ds.isEmpty
    · rw [if_pos hde]
    · rw [if_neg hde, hfu]
      dsimp only
      simp
  · intro extractedPackages maxLevels net h
    obtain ⟨ds, u, st', L0', rest', hds, hfu, hL0, hpdl, hlev⟩ := create_ok_cases h
    have hne := pdl_levels_nonempty registry ann (maxLevels - 1) _ _ _ hpdl
    constructor
    · intro L hL
      rw [hlev] at hL
      rcases List.mem_cons.mp hL with rfl | hL'
      · rw [hL0]
        simp
      · exact (hne L hL').1
    · intro L0 rest heq L hL
      rw [hlev] at heq
      injection heq with h1 h2
      subst h2
      exact (hne L hL).2

/-- Witness for C9: on an empty current level the loop stops immediately, and
the concrete build `netSelf` has its level-0 packages list non-empty. -/
theorem level_loop_stop_conditions_witness :
    processDependencyLevels regEmpty annNone 1 [] initialState = .ok [] ∧
      selfLevel0.packages ≠ [] :=
  ⟨(level_loop_stop_conditions regEmpty annNone).1 0 [] initialState
      initialState rfl,
    ((level_loop_stop_conditions regSelf annNone).2.2 (.ok [pkgA]) 2 netSelf
        rfl).1 selfLevel0 (by decide)⟩

/-- C3 (counterexample). A batch whose FIRST package is tagged pypi but whose
SECOND carries no ecosystem tag resolves successfully: the dispatch never
looks at the second package's tag, so — contrary to the claim — a package
with an absent tag does not make the call fail with an error naming it (the
untagged package is simply resolved by the first package's provider). -/
theorem dispatch_per_package_counterexample :
    pkgNoType.type = none ∧
      extractDependencies regEmpty [pkgA, pkgNoType] = .ok [] :=
  ⟨rfl, rfl⟩

/-- C3 (amended). Dispatch consults only the FIRST package of a non-empty
batch: an absent tag on the first package fails the call with an error naming
that package, a tag with no registered provider fails it with an error naming
the tag, and otherwise (first package tagged pypi) every package of the batch
is resolved by the provider registered for the first package's tag. -/
theorem dispatch_by_first_package (registry : Package → RegistryResponse) :
    (∀ (p : Package) (rest : List Package), p.type = none →
        extractDependencies registry (p :: rest) =
          .error (.packageTypeUnknown p.name)) ∧
    (∀ (p : Package) (rest : List Package) (t : PackageType), p.type = some t →
        providerRegistry registry t = none →
        extractDependencies registry (p :: rest) =
          .error (.dependencyProviderNotFound t)) ∧
    (∀ (p : Package) (rest : List Package), p.type = some PackageType.pypi →
        extractDependencies registry (p :: rest) =
          .ok ((p :: rest).flatMap (pythonExtractDependencies registry))) := by
  refine ⟨?_, ?_, extractDependencies_pypi registry⟩
  · intro p rest ht
    unfold extractDependencies getProvider getPackageType
    dsimp only
    rw [ht]
  · intro p rest t ht hreg
    unfold extractDependencies getProvider getPackageType
    dsimp only
    rw [ht]
    dsimp only
    rw [hreg]

/-- Witness for the amended C3: an untagged head fails naming the package, an
npm head fails naming the tag, and a pypi head resolves the batch. -/
theorem dispatch_by_first_package_witness :
    extractDependencies regEmpty [pkgNoType] =
        .error (.packageTypeUnknown "b") ∧
      extractDependencies regEmpty [pkgNpm] =
        .error (.dependencyProviderNotFound PackageType.npm) ∧
      extractDependencies regEmpty [pkgA] =
        .ok ([pkgA].flatMap (pythonExtractDependencies regEmpty)) :=
  ⟨(dispatch_by_first_package regEmpty).1 pkgNoType [] rfl,
    (dispatch_by_first_package regEmpty).2.1 pkgNpm [] PackageType.npm rfl rfl,
    (dispatch_by_first_package regEmpty).2.2 pkgA [] rfl⟩

/-- C4. On a dispatchable batch, a per-package lookup failure (network error,
registry 404, malformed body — exactly the failures the provider's own
try/catch swallows, which are the only ways the registered resolver can fail)
never fails the batch: resolution succeeds, the failing package contributes
zero edges, and every other package's edges are all present. -/
theorem resolution_failure_isolation (registry : Package → RegistryResponse)
    (p : Package) (rest : List Package) (hp : p.type = some PackageType.pypi) :
    ∃ ds, extractDependencies registry (p :: rest) = .ok ds ∧
      (∀ x ∈ p :: rest, lookupFailed (registry x) → ∀ e ∈ ds, e.«from» ≠ x) ∧
      (∀ y ∈ p :: rest, ∀ e ∈ pythonExtractDependencies registry y, e ∈ ds) := by
  refine ⟨(p :: rest).flatMap (pythonExtractDependencies registry),
    extractDependencies_pypi registry p rest hp, ?_, ?_⟩
  · intro x _ hfail e he heq
    obtain ⟨y, _, hey⟩ := List.mem_flatMap.mp he
    have hyx : y = x := ((pythonExtractDependencies_mem hey).1).symm.trans heq
    rw [hyx, python_lookupFailed_empty hfail] at hey
    exact absurd hey (List.not_mem_nil e)
  · intro y hy e he
    exact List.mem_flatMap.mpr ⟨y, hy, he⟩

/-- Witness for C4 on the batch `[a@1, b@2]` against `regMixed`, where `b`
suffers a network error and `a` resolves. -/
theorem resolution_failure_isolation_witness :
    pkgA.type = some PackageType.pypi ∧
      ∃ ds, extractDependencies regMixed [pkgA, pkgB] = .ok ds ∧
        (∀ x ∈ [pkgA, pkgB], lookupFailed (regMixed x) →
          ∀ e ∈ ds, e.«from» ≠ x) ∧
        (∀ y ∈ [pkgA, pkgB], ∀ e ∈ pythonExtractDependencies regMixed y,
          e ∈ ds) :=
  ⟨rfl, resolution_failure_isolation regMixed pkgA [pkgB] rfl⟩

/-- C10. A package at the `"*"` latest-version sentinel always yields an empty
requirement list — even when the registry body carries `requires_dist`
entries — because the entries are only consulted when a pinned version is
present; such a package therefore contributes zero edges. -/
theorem latest_version_zero_dependencies (registry : Package → RegistryResponse)
    (pkg : Package) (h : pkg.version = LATEST_VERSION) :
    fetchRequiredPackages registry pkg = [] ∧
      pythonExtractDependencies registry pkg = [] := by
  have h1 : getPackageVersionForAPI pkg = none := by
    unfold getPackageVersionForAPI
    rw [if_pos h]
  have h2 : fetchRequiredPackages registry pkg = [] := by
    unfold fetchRequiredPackages
    cases hr : registry pkg with
    | fetchFailed => rfl
    | notFound => rfl
    | malformedBody => rfl
    | jsonBody rd =>
      dsimp only
      rw [h1]
      cases rd <;> rfl
  refine ⟨h2, ?_⟩
  unfold pythonExtractDependencies
  rw [h2]
  rfl

/-- Witness for C10 on a `"*"`-versioned package against a registry whose
response carries a `requires_dist` entry. -/
theorem latest_version_zero_dependencies_witness :
    pkgStar.version = LATEST_VERSION ∧
      fetchRequiredPackages regDist pkgStar = [] ∧
      pythonExtractDependencies regDist pkgStar = [] :=
  ⟨rfl, latest_version_zero_dependencies regDist pkgStar rfl⟩

end Vuliz
